import Mathlib

/-!
Verification development for the expense-management backend
(`backend/models.py`, `backend/main.py`).

The Python source is shallowly embedded:

* SQLite rows become Lean structures; a table is a `List` of rows, and the
  per-request connection state is threaded explicitly.
* `datetime` values (always exchanged as canonical `YYYY-MM-DD` strings with
  four-digit years, produced by `strftime('%Y-%m-%d')`) are represented by a
  numeric triple `Date`; both SQLite's `BETWEEN` on such strings and
  Python's string comparison coincide with the lexicographic order `dateLt`
  on the triples.
* monetary values (`REAL` / Python `float`) are represented by `ℚ`;
  `round(x, 2)` becomes `round2` (round half to even, as CPython does).
* `hashlib.sha256(raw).hexdigest()` is modelled by the canonical preimage
  `raw` itself: the digest is a deterministic, effectively injective
  function of `raw`, and only equality of digests is ever used.
-/

set_option maxRecDepth 100000

namespace ExpenseApp

/-! ### Calendar dates -/

/-- A calendar date `year-month-day`.  Canonical `YYYY-MM-DD` strings stored
in the `expenses.data_valuta` column are represented by this triple. -/
structure Date where
  year : ℕ
  month : ℕ
  day : ℕ
deriving DecidableEq

/-- Chronological (= lexicographic) strict order on dates.  String comparison
of zero-padded `YYYY-MM-DD` strings (Python `<` on `str`, SQLite `BETWEEN`)
agrees with this order. -/
def dateLt (a b : Date) : Prop :=
  a.year < b.year ∨ (a.year = b.year ∧
    (a.month < b.month ∨ (a.month = b.month ∧ a.day < b.day)))

instance (a b : Date) : Decidable (dateLt a b) := by
  unfold dateLt; exact inferInstance

/-- Non-strict version of `dateLt`. -/
def dateLe (a b : Date) : Prop := dateLt a b ∨ a = b

instance (a b : Date) : Decidable (dateLe a b) := by
  unfold dateLe; exact inferInstance

/-- Gregorian leap-year test (as in `datetime`). -/
def isLeap (y : ℕ) : Bool :=
  (y % 4 == 0 && y % 100 != 0) || (y % 400 == 0)

/-- Number of days of month `m` in year `y` (Gregorian calendar, as used by
`datetime.timedelta` arithmetic). -/
def daysInMonth (y m : ℕ) : ℕ :=
  if m = 2 then (if isLeap y then 29 else 28)
  else if m = 4 ∨ m = 6 ∨ m = 9 ∨ m = 11 then 30
  else 31

/-- A date that `datetime.date` can actually hold. -/
def ValidDate (d : Date) : Prop :=
  1 ≤ d.year ∧ 1 ≤ d.month ∧ d.month ≤ 12 ∧ 1 ≤ d.day ∧
    d.day ≤ daysInMonth d.year d.month

instance (d : Date) : Decidable (ValidDate d) := by
  unfold ValidDate; exact inferInstance

/-- The day after `d` (`d + timedelta(days=1)`). -/
def succDay (d : Date) : Date :=
  if d.day < daysInMonth d.year d.month then ⟨d.year, d.month, d.day + 1⟩
  else if d.month < 12 then ⟨d.year, d.month + 1, 1⟩
  else ⟨d.year + 1, 1, 1⟩

/-- The day before `d` (`d - timedelta(days=1)`). -/
def predDay (d : Date) : Date :=
  if 1 < d.day then ⟨d.year, d.month, d.day - 1⟩
  else if 1 < d.month then ⟨d.year, d.month - 1, daysInMonth d.year (d.month - 1)⟩
  else ⟨d.year - 1, 12, 31⟩

/-- `d + timedelta(days=n)`. -/
def addDays (d : Date) : ℕ → Date
  | 0 => d
  | n + 1 => succDay (addDays d n)

/-- `d - timedelta(days=n)`. -/
def subDays (d : Date) : ℕ → Date
  | 0 => d
  | n + 1 => predDay (subDays d n)

/-! ### Characters and strings

String manipulation from the source (`str.strip`, `str.lower`, `re.sub`,
`str.split`) is embedded on the character-list representation of `String`. -/

def isSpaceChar (c : Char) : Bool :=
  (c == ' ') || (c == '\t') || (c == '\n') || (c == '\r')

def trimChars (l : List Char) : List Char :=
  ((l.dropWhile isSpaceChar).reverse.dropWhile isSpaceChar).reverse

/-- Python `str.strip()`. -/
def pyStrip (s : String) : String := String.mk (trimChars s.data)

def lowerChar (c : Char) : Char :=
  if 'A' ≤ c ∧ c ≤ 'Z' then Char.ofNat (c.toNat + 32) else c

/-- Python `str.lower()` and SQLite `LOWER` (ASCII case folding). -/
def pyLower (s : String) : String := String.mk (s.data.map lowerChar)

/-- `s.strip().lower()` (equally, SQLite `LOWER(TRIM(s))`): the description
normalisation used by the duplicate checks and the keyword matching. -/
def normDesc (s : String) : String := pyLower (pyStrip s)

def splitOnChar (sep : Char) : List Char → List (List Char)
  | [] => [[]]
  | c :: rest =>
    match splitOnChar sep rest with
    | [] => [[c]]
    | h :: t => if c = sep then [] :: h :: t else (c :: h) :: t

def digitsToNat (l : List Char) : ℕ :=
  l.foldl (fun n c => 10 * n + (c.toNat - 48)) 0

/-- An all-digit field of width `lo`–`hi`, as matched by a `strptime`
directive (`%Y` is 1–4 digits, `%m`/`%d` are 1–2 digits). -/
def parseNatField (lo hi : ℕ) (l : List Char) : Option ℕ :=
  if 1 ≤ lo ∧ lo ≤ l.length ∧ l.length ≤ hi ∧ l.all Char.isDigit then
    some (digitsToNat l)
  else none

/-- The calendar validation performed by the `datetime` constructor
(`MINYEAR ≤ year`, `1 ≤ month ≤ 12`, `1 ≤ day ≤` days of that month). -/
def checkDate (y m d : ℕ) : Option Date :=
  if 1 ≤ y ∧ 1 ≤ m ∧ m ≤ 12 ∧ 1 ≤ d ∧ d ≤ daysInMonth y m then
    some ⟨y, m, d⟩
  else none

/-- `datetime.strptime(s, '%Y-%m-%d')` (`check_fuzzy_duplicate`,
`update_expense`, `create_expense`). -/
def parseDateYMD (s : String) : Option Date :=
  match splitOnChar '-' s.data with
  | [ys, ms, ds] =>
    match parseNatField 1 4 ys, parseNatField 1 2 ms, parseNatField 1 2 ds with
    | some y, some m, some d => checkDate y m d
    | _, _, _ => none
  | _ => none

/-- `datetime.strptime(s, '%d<sep>%m<sep>%Y')` for a separator character. -/
def parseDateDMY (sep : Char) (s : String) : Option Date :=
  match splitOnChar sep s.data with
  | [ds, ms, ys] =>
    match parseNatField 1 2 ds, parseNatField 1 2 ms, parseNatField 1 4 ys with
    | some d, some m, some y => checkDate y m d
    | _, _, _ => none
  | _ => none

/-- The ingestion date parser: formats `%d/%m/%Y`, `%d-%m-%Y`, `%Y-%m-%d`,
`%d.%m.%Y` tried in order on the stripped string, first success wins
(`process_excel`). -/
def parseAnyDate (s : String) : Option Date :=
  let t := pyStrip s
  match parseDateDMY '/' t with
  | some d => some d
  | none =>
    match parseDateDMY '-' t with
    | some d => some d
    | none =>
      match parseDateYMD t with
      | some d => some d
      | none => parseDateDMY '.' t

def pad2 (n : ℕ) : String := if n < 10 then "0" ++ Nat.repr n else Nat.repr n

/-- `strftime('%Y-%m-%d')`, the canonical stored date format. -/
def fmtDate (d : Date) : String :=
  Nat.repr d.year ++ "-" ++ pad2 d.month ++ "-" ++ pad2 d.day

/-! ### Rounding and the cent grid

`round(x, 2)` in CPython rounds to the nearest multiple of 1/100, ties to
even.  The reconciliation analysis needs only that `round2` lands on the
cent grid within half a cent of its argument. -/

def roundHalfEven (q : ℚ) : ℤ :=
  let f := ⌊q⌋
  let r := q - (f : ℚ)
  if r < 1/2 then f
  else if 1/2 < r then f + 1
  else if f % 2 = 0 then f else f + 1

/-- Python `round(x, 2)`. -/
def round2 (q : ℚ) : ℚ := ((roundHalfEven (100 * q) : ℤ) : ℚ) / 100

/-- Membership in the cent grid: an exact multiple of 1/100. -/
def IsCent (x : ℚ) : Prop := ∃ k : ℤ, x = (k : ℚ) / 100

/-! ### CurrencyParser (`parse_importo`, main.py lines 69-105) -/

/-- A Python value arriving in an `Importo` cell or a JSON body: either an
`int`/`float` (taken as an exact decimal) or a string. -/
inductive PyVal where
  | num (q : ℚ)
  | str (s : String)
deriving DecidableEq

def isCurrencyOrSpace (c : Char) : Bool :=
  (c == '€') || (c == '$') || (c == '£') || isSpaceChar c

/-- The grammar accepted by Python `float()` restricted to plain decimal
notation: optional sign, digits, optional fractional part (scientific
notation, `inf` and `nan` never arise here and are treated as parse
failures). -/
def parseUnsignedDec (l : List Char) : Option ℚ :=
  match splitOnChar '.' l with
  | [a] =>
    if a ≠ [] ∧ a.all Char.isDigit then some ((digitsToNat a : ℚ)) else none
  | [a, b] =>
    if (a ≠ [] ∨ b ≠ []) ∧ a.all Char.isDigit ∧ b.all Char.isDigit then
      some ((digitsToNat a : ℚ) + (digitsToNat b : ℚ) / (10 : ℚ) ^ b.length)
    else none
  | _ => none

def parseFloatQ (l : List Char) : Option ℚ :=
  match l with
  | '-' :: rest => (parseUnsignedDec rest).map (fun q => -q)
  | '+' :: rest => parseUnsignedDec rest
  | _ => parseUnsignedDec l

/-- `parse_importo`: numeric input is returned as-is; a string is stripped
of currency symbols and whitespace, then the separators are disambiguated:
both `.` and `,` present → remove dots, comma becomes the decimal point;
only `,` → comma becomes the decimal point; only `.` or neither → leave
as-is.  A final parse failure yields `0.0`. -/
def parse_importo : PyVal → ℚ
  | .num q => q
  | .str v =>
    let s := (pyStrip v).data.filter (fun c => !(isCurrencyOrSpace c))
    let hasDot := s.contains '.'
    let hasComma := s.contains ','
    let s2 :=
      if hasDot && hasComma then
        (s.filter (fun c => !(c == '.'))).map (fun c => if c = ',' then '.' else c)
      else if hasComma then
        s.map (fun c => if c = ',' then '.' else c)
      else s
    match parseFloatQ s2 with
    | some q => q
    | none => 0

/-! ### FingerprintGenerator (`generate_hash`, main.py lines 108-111)

`generate_hash` builds the pipe-delimited canonical string
`f"{data_valuta}|{importo:.2f}|{operazione.strip().lower()}|{conto_carta.strip().lower()}"`
and returns its SHA-256 hex digest.  The digest is modelled by the canonical
preimage itself (deterministic, injective for the purpose of equality
comparison, which is the only use the source makes of it). -/

/-- `"%.2f" % q` (two fractional digits, rounding to nearest). -/
def fmt2 (q : ℚ) : String :=
  let n := roundHalfEven (100 * q)
  let a := n.natAbs
  (if n < 0 then "-" else "") ++ Nat.repr (a / 100) ++ "." ++ pad2 (a % 100)

def generate_hash (data_valuta : String) (importo : ℚ)
    (operazione conto_carta : String) : String :=
  data_valuta ++ "|" ++ fmt2 importo ++ "|" ++ normDesc operazione ++ "|" ++
    normDesc conto_carta

/-! ### NeutralClassifier (`get_neutral_keywords` / `check_neutral`,
main.py lines 58-66) -/

/-- `get_neutral_keywords`: the set of stored keywords, lower-cased (note:
lower-cased but *not* trimmed).  The stored table is a list of strings. -/
def get_neutral_keywords (stored : List String) : List String :=
  stored.map pyLower

/-- `check_neutral`: exact full match of the stripped, lower-cased
description against the keyword set. -/
def check_neutral (operazione : String) (neutral_kws : List String) : Bool :=
  neutral_kws.contains (pyLower (pyStrip operazione))

/-! ### Ledger rows -/

/-- A row of the `expenses` table (`init_db`, models.py lines 27-40). -/
structure Expense where
  id : ℕ
  data_valuta : Date
  operazione : String
  conto_carta : String
  categoria : String
  valuta : String
  importo : ℚ
  hash_id : String
  is_neutral : Bool
  is_excluded : Bool
deriving DecidableEq

/-! ### DuplicateDetector (`check_fuzzy_duplicate`, main.py lines 114-135) -/

/-- The row predicate of the fuzzy-duplicate SQL query: equal amount,
`LOWER(TRIM(operazione))` equal to the already-normalised candidate
description, and value date `BETWEEN target-2days AND target+2days`
(inclusive; string `BETWEEN` on canonical dates is chronological). -/
def FuzzyClash (e : Expense) (target : Date) (importo : ℚ) (op : String) : Prop :=
  e.importo = importo ∧ normDesc e.operazione = normDesc op ∧
    dateLe (subDays target 2) e.data_valuta ∧ dateLe e.data_valuta (addDays target 2)

instance (e : Expense) (target : Date) (importo : ℚ) (op : String) :
    Decidable (FuzzyClash e target importo op) := by
  unfold FuzzyClash; exact inferInstance

/-- The `SELECT COUNT(*) ... > 0` part of `check_fuzzy_duplicate`, for an
already-parsed target date. -/
def fuzzyWindowHit (ledger : List Expense) (target : Date) (importo : ℚ)
    (op : String) : Bool :=
  decide (0 < ledger.countP (fun e => decide (FuzzyClash e target importo op)))

/-- `check_fuzzy_duplicate`: parse the candidate's date with
`strptime('%Y-%m-%d')`; on failure return `False`, otherwise look for any
ledger row with the same amount and normalised description within ±2 days. -/
def check_fuzzy_duplicate (ledger : List Expense) (data_valuta : String)
    (importo : ℚ) (operazione : String) : Bool :=
  match parseDateYMD data_valuta with
  | none => false
  | some target => fuzzyWindowHit ledger target importo operazione

/-! ### StatementIngestor (`process_excel`, main.py lines 138-229)

A decoded spreadsheet row (after `pd.read_excel` and the `str(...)`
conversions the source applies) is a `RawRow`; the `Data` cell may be a
native datetime, a string, missing (`pd.isna`), or some other value. -/

inductive DataCell where
  | missing
  | dt (d : Date)
  | str (s : String)
  | other
deriving DecidableEq

structure RawRow where
  data : DataCell
  operazione : String
  conto_carta : String
  categoria : String
  valuta : String
  importo : PyVal
deriving DecidableEq

/-- The statistics object built by `process_excel`; a fuzzy-match record
holds `{data, operazione, importo}`. -/
structure Stats where
  new : ℕ
  duplicates : ℕ
  fuzzy_matches : List (Date × String × ℚ)
  errors : ℕ
deriving DecidableEq

/-- The per-request connection state: the `expenses` table, the next
autoincrement id, and the running statistics. -/
structure IngestState where
  ledger : List Expense
  nextId : ℕ
  stats : Stats
deriving DecidableEq

/-- `'' if field == 'nan' else field` after stripping (account/category). -/
def normField (s : String) : String :=
  let c := pyStrip s
  if c = "nan" then "" else c

/-- `'EUR' if valuta == 'nan' else valuta` after stripping. -/
def normValuta (s : String) : String :=
  let c := pyStrip s
  if c = "nan" then "EUR" else c

/-- The body of the ingestion loop after a successful date parse
(main.py lines 179-219): extract and normalise the fields, reject exact
then fuzzy duplicates, classify neutral, insert. -/
def processParsed (kws : List String) (st : IngestState) (row : RawRow)
    (d : Date) : IngestState :=
  let operazione := pyStrip row.operazione
  if operazione = "" ∨ operazione = "nan" then st
  else
    let conto_carta := normField row.conto_carta
    let categoria := normField row.categoria
    let valuta := normValuta row.valuta
    let importo := parse_importo row.importo
    let hash_id := generate_hash (fmtDate d) importo operazione conto_carta
    if st.ledger.any (fun e => e.hash_id == hash_id) then
      { st with stats := { st.stats with duplicates := st.stats.duplicates + 1 } }
    else if fuzzyWindowHit st.ledger d importo operazione then
      { st with stats :=
          { st.stats with
            duplicates := st.stats.duplicates + 1,
            fuzzy_matches := st.stats.fuzzy_matches ++ [(d, operazione, importo)] } }
    else
      { ledger := st.ledger ++
          [{ id := st.nextId, data_valuta := d, operazione := operazione,
             conto_carta := conto_carta, categoria := categoria,
             valuta := valuta, importo := importo, hash_id := hash_id,
             is_neutral := check_neutral operazione kws, is_excluded := false }],
        nextId := st.nextId + 1,
        stats := { st.stats with new := st.stats.new + 1 } }

/-- One iteration of the ingestion loop (main.py lines 157-223): missing
dates are skipped silently, a native datetime is used directly, a string is
parsed against the four accepted formats (failure counts an error), any
other value counts an error.  The source re-parses the canonical
`data_valuta` string inside `check_fuzzy_duplicate`; the round-trip is the
identity, so `processParsed` passes the date through. -/
def processRow (kws : List String) (st : IngestState) (row : RawRow) :
    IngestState :=
  match row.data with
  | .missing => st
  | .dt d => processParsed kws st row d
  | .str s =>
    match parseAnyDate s with
    | some d => processParsed kws st row d
    | none => { st with stats := { st.stats with errors := st.stats.errors + 1 } }
  | .other => { st with stats := { st.stats with errors := st.stats.errors + 1 } }

/-- `process_excel` on the decoded rows: fresh statistics, one pass over
the rows against the given connection state. -/
def process_excel (stored_kws : List String) (ledger : List Expense)
    (nextId : ℕ) (rows : List RawRow) : IngestState :=
  rows.foldl (processRow (get_neutral_keywords stored_kws))
    ⟨ledger, nextId, ⟨0, 0, [], 0⟩⟩

/-! Derived per-row views used to state properties of ingestion. -/

/-- The date a row will be ingested under, when it has one. -/
def rowDate (r : RawRow) : Option Date :=
  match r.data with
  | .dt d => some d
  | .str s => parseAnyDate s
  | _ => none

def dOf (r : RawRow) : Date := (rowDate r).getD ⟨1, 1, 1⟩

def rowOp (r : RawRow) : String := pyStrip r.operazione

def rowImporto (r : RawRow) : ℚ := parse_importo r.importo

def hashOf (r : RawRow) : String :=
  generate_hash (fmtDate (dOf r)) (rowImporto r) (rowOp r) (normField r.conto_carta)

/-- A row the ingestion loop will attempt to insert: it has a usable
date and a non-empty, non-`'nan'` description. -/
def ValidRow (r : RawRow) : Prop :=
  (∃ d, rowDate r = some d) ∧ rowOp r ≠ "" ∧ rowOp r ≠ "nan"

/-- The ledger row created for `r` with id `i`. -/
def mkExp (kws : List String) (i : ℕ) (r : RawRow) : Expense :=
  { id := i, data_valuta := dOf r, operazione := rowOp r,
    conto_carta := normField r.conto_carta, categoria := normField r.categoria,
    valuta := normValuta r.valuta, importo := rowImporto r, hash_id := hashOf r,
    is_neutral := check_neutral (rowOp r) kws, is_excluded := false }

/-- The rows inserted for a batch, ids starting at `i`. -/
def insFrom (kws : List String) : ℕ → List RawRow → List Expense
  | _, [] => []
  | i, r :: rs => mkExp kws i r :: insFrom kws (i + 1) rs

/-- Cross-row fuzzy clash: the row inserted for `a` would be reported as a
fuzzy duplicate of candidate `b`. -/
def RowClash (a b : RawRow) : Prop :=
  rowImporto a = rowImporto b ∧ normDesc (rowOp a) = normDesc (rowOp b) ∧
    dateLe (subDays (dOf b) 2) (dOf a) ∧ dateLe (dOf a) (addDays (dOf b) 2)

instance (a b : RawRow) : Decidable (RowClash a b) := by
  unfold RowClash; exact inferInstance

/-! ### Ledger invariant -/

/-- Well-formedness of the `expenses` table against the autoincrement
counter: pairwise-distinct fingerprints (the `UNIQUE` constraint on
`hash_id`), pairwise-distinct ids (the primary key), ids below the counter. -/
def LedgerInv (l : List Expense) (nid : ℕ) : Prop :=
  l.Pairwise (fun a b => a.hash_id ≠ b.hash_id) ∧
  l.Pairwise (fun a b => a.id ≠ b.id) ∧
  ∀ e ∈ l, e.id < nid

/-! ### Manual entry endpoints (`create_expense` / `update_expense`,
main.py lines 343-502)

The endpoints validate required fields and the `%Y-%m-%d` date format, then
guard the insert/update with a fingerprint lookup.  A date string accepted
by the validation is represented by its parsed `Date` (the canonical
representative used in `generate_hash`). -/

inductive ApiResp where
  | ok
  | badRequest
  | notFound
  | conflict
deriving DecidableEq

/-- The storage as seen by the manual-entry endpoints. -/
structure Db where
  ledger : List Expense
  nextId : ℕ
  neutral_keywords : List String
deriving DecidableEq

def create_expense (db : Db) (data_valuta operazione categoria conto_carta : String)
    (importo_raw : PyVal) : Db × ApiResp :=
  let dv := pyStrip data_valuta
  let op := pyStrip operazione
  let cat := pyStrip categoria
  let conto := pyStrip conto_carta
  if dv = "" ∨ op = "" then (db, .badRequest)
  else
    let importo := parse_importo importo_raw
    match parseDateYMD dv with
    | none => (db, .badRequest)
    | some d =>
      let hash_id := generate_hash (fmtDate d) importo op conto
      if db.ledger.any (fun e => e.hash_id == hash_id) then (db, .conflict)
      else
        ({ db with
            ledger := db.ledger ++
              [{ id := db.nextId, data_valuta := d, operazione := op,
                 conto_carta := conto, categoria := cat, valuta := "EUR",
                 importo := importo, hash_id := hash_id,
                 is_neutral := check_neutral op (get_neutral_keywords db.neutral_keywords),
                 is_excluded := false }],
            nextId := db.nextId + 1 }, .ok)

def update_expense (db : Db) (expense_id : ℕ)
    (data_valuta operazione categoria conto_carta : String) (importo_raw : PyVal) :
    Db × ApiResp :=
  let dv := pyStrip data_valuta
  let op := pyStrip operazione
  let cat := pyStrip categoria
  let conto := pyStrip conto_carta
  if dv = "" ∨ op = "" then (db, .badRequest)
  else
    let importo := parse_importo importo_raw
    match parseDateYMD dv with
    | none => (db, .badRequest)
    | some d =>
      if db.ledger.any (fun e => e.id == expense_id) then
        let new_hash := generate_hash (fmtDate d) importo op conto
        if db.ledger.any (fun e => e.hash_id == new_hash && e.id != expense_id) then
          (db, .conflict)
        else
          ({ db with ledger := db.ledger.map (fun e =>
              if e.id = expense_id then
                { e with
                  data_valuta := d, operazione := op, conto_carta := conto,
                  categoria := cat, importo := importo, hash_id := new_hash,
                  is_neutral := check_neutral op (get_neutral_keywords db.neutral_keywords) }
              else e) }, .ok)
      else (db, .notFound)

/-! ### ReconciliationEngine (`detect_rimborso`, main.py lines 845-933) -/

/-- An unpaid month as computed by `detect_rimborso`: distinct
`(year, month)` with the net total of its non-excluded, non-neutral
expenses, rounded to 2 decimals (`round(total, 2)`). -/
structure UnpaidMonth where
  year : ℕ
  month : ℕ
  amount : ℚ
deriving DecidableEq

/-- `[m for m in unpaid if f"{m['year']}-{m['month']:02d}-28" < tx_date]`:
only unpaid months whose notional end (the 28th) is strictly before the
transfer's date; the string comparison on canonical dates is `dateLt`. -/
def eligibleMonths (unpaid : List UnpaidMonth) (txDate : Date) : List UnpaidMonth :=
  unpaid.filter fun m => decide (dateLt ⟨m.year, m.month, 28⟩ txDate)

/-- `sorted(eligible, key=lambda m: (m["year"], m["month"]))`. -/
def sortMonths (l : List UnpaidMonth) : List UnpaidMonth :=
  l.mergeSort fun a b =>
    decide (a.year < b.year ∨ (a.year = b.year ∧ a.month ≤ b.month))

/-- `sum(m["amount"] for m in combo)`. -/
def sumAmounts (l : List UnpaidMonth) : ℚ := (l.map (fun m => m.amount)).sum

/-- A candidate best match as the source stores it: the matched run, its
rounded total, and the rounded difference. -/
structure BestMatch where
  months : List UnpaidMonth
  months_total : ℚ
  diff : ℚ
deriving DecidableEq

/-- All contiguous runs `eligible_sorted[start_idx : end_idx + 1]` with
`end_idx in range(start_idx, min(start_idx + 4, len))`, in iteration order:
every run of 1–4 consecutive months by sorted-list index. -/
def runsList (es : List UnpaidMonth) : List (List UnpaidMonth) :=
  (List.range es.length).flatMap fun i =>
    (List.range (min 4 (es.length - i))).map fun j => (es.drop i).take (j + 1)

/-- The unrounded figure-of-merit of a run against a transfer amount:
`diff = abs(abs(cumulative) - tx_amount)`. -/
def rdiff (txAmount : ℚ) (c : List UnpaidMonth) : ℚ :=
  |(|sumAmounts c|) - txAmount|

/-- `diff <= tolleranza and (best is None or diff < best["diff"])`. -/
def betterCond (diff tol : ℚ) : Option BestMatch → Prop
  | none => diff ≤ tol
  | some b => diff ≤ tol ∧ diff < b.diff

instance (diff tol : ℚ) (ob : Option BestMatch) :
    Decidable (betterCond diff tol ob) :=
  match ob with
  | none => inferInstanceAs (Decidable (diff ≤ tol))
  | some b => inferInstanceAs (Decidable (diff ≤ tol ∧ diff < b.diff))

/-- One inner-loop iteration of the window search (main.py lines 916-926). -/
def stepBest (txAmount tol : ℚ) (best : Option BestMatch)
    (combo : List UnpaidMonth) : Option BestMatch :=
  let cumulative := sumAmounts combo
  let diff := |(|cumulative|) - txAmount|
  if betterCond diff tol best then
    some { months := combo, months_total := round2 cumulative, diff := round2 diff }
  else best

/-- The window search over all contiguous runs of 1–4 eligible months. -/
def detectBest (es : List UnpaidMonth) (txAmount tol : ℚ) : Option BestMatch :=
  (runsList es).foldl (stepBest txAmount tol) none

/-- The per-transfer pipeline of `detect_rimborso`: restrict unpaid months
to those strictly preceding the transfer, sort chronologically, then search
contiguous windows. -/
def detectForTx (unpaid : List UnpaidMonth) (txDate : Date) (txAmount tol : ℚ) :
    Option BestMatch :=
  detectBest (sortMonths (eligibleMonths unpaid txDate)) txAmount tol

/-- Correctness predicate for the running best of the window search over
the runs seen so far. -/
def GoodBest (tx tol : ℚ) (cs : List (List UnpaidMonth)) :
    Option BestMatch → Prop
  | none => ∀ c ∈ cs, ¬ rdiff tx c ≤ tol
  | some b => b.months ∈ cs ∧ rdiff tx b.months ≤ tol ∧
      b.diff = round2 (rdiff tx b.months) ∧
      b.months_total = round2 (sumAmounts b.months) ∧
      ∀ c ∈ cs, rdiff tx c ≤ tol → rdiff tx b.months ≤ rdiff tx c

/-! ### Schema creation (`init_db`, models.py lines 19-90) -/

/-- A table created by a `CREATE TABLE` statement, with its primary key and
its `UNIQUE`-constrained columns. -/
structure TableDef where
  name : String
  primaryKey : List String
  uniqueCols : List String
deriving DecidableEq

/-- The tables `init_db` creates on an empty database, in statement order:
`expenses` (surrogate id, `hash_id TEXT UNIQUE NOT NULL`), `monthly_status`
(`PRIMARY KEY (month, year)`), `neutral_keywords` (`keyword TEXT UNIQUE`),
and the singleton `rimborso_settings`.  No other table is created anywhere
in the repository. -/
def init_db : List TableDef :=
  [ { name := "expenses", primaryKey := ["id"], uniqueCols := ["hash_id"] },
    { name := "monthly_status", primaryKey := ["month", "year"], uniqueCols := [] },
    { name := "neutral_keywords", primaryKey := ["id"], uniqueCols := ["keyword"] },
    { name := "rimborso_settings", primaryKey := ["id"], uniqueCols := [] } ]

/-- The sender ("mittente") table queried by the sender CRUD endpoints and
by `detect_rimborso`. -/
def senderTableName : String := "rimborso_mittenti"

/-- The tables `detect_rimborso` reads (main.py lines 845-933). -/
def detectRimborsoTablesRead : List String :=
  ["rimborso_mittenti", "monthly_status", "expenses"]

/-- The reconciliation-window example months: Jan = -100, Feb = -150,
Mar = -80. -/
def janEx : UnpaidMonth := ⟨2024, 1, -100⟩

def febEx : UnpaidMonth := ⟨2024, 2, -150⟩

def marEx : UnpaidMonth := ⟨2024, 3, -80⟩

/-- A 10-row ingestion example whose 5th row has a date string matching
none of the accepted formats (February 30th fails calendar validation). -/
def exRows10 : List RawRow :=
  [ ⟨.str "01/03/2024", "spesa uno", "", "", "EUR", .num (-1)⟩,
    ⟨.str "02/03/2024", "spesa due", "", "", "EUR", .num (-2)⟩,
    ⟨.str "03/03/2024", "spesa tre", "", "", "EUR", .num (-3)⟩,
    ⟨.str "04/03/2024", "spesa quattro", "", "", "EUR", .num (-4)⟩,
    ⟨.str "2024-02-30", "spesa cinque", "", "", "EUR", .num (-5)⟩,
    ⟨.str "06/03/2024", "spesa sei", "", "", "EUR", .num (-6)⟩,
    ⟨.str "07/03/2024", "spesa sette", "", "", "EUR", .num (-7)⟩,
    ⟨.str "08/03/2024", "spesa otto", "", "", "EUR", .num (-8)⟩,
    ⟨.str "09/03/2024", "spesa nove", "", "", "EUR", .num (-9)⟩,
    ⟨.str "10/03/2024", "spesa dieci", "", "", "EUR", .num (-10)⟩ ]

/-- The two-row example batch for the exact-duplicate idempotence claim. -/
def exRowsC6 : List RawRow :=
  [ ⟨.str "01/03/2024", "alpha", "", "", "EUR", .num (-10)⟩,
    ⟨.str "10/03/2024", "beta", "", "", "EUR", .num (-20)⟩ ]

/-- A concrete ledger row for the fuzzy-duplicate witness. -/
def e5ex : Expense :=
  { id := 1, data_valuta := ⟨2024, 5, 10⟩, operazione := "spesa bar",
    conto_carta := "", categoria := "", valuta := "EUR", importo := -12.5,
    hash_id := "h0", is_neutral := false, is_excluded := false }

/-! ### Theorems -/

theorem dateLt_irrefl (a : Date) : ¬ dateLt a a := by
  obtain ⟨y, m, d⟩ := a; simp only [dateLt]; omega

theorem dateLt_trans {a b c : Date} (h₁ : dateLt a b) (h₂ : dateLt b c) :
    dateLt a c := by
  obtain ⟨y₁, m₁, d₁⟩ := a; obtain ⟨y₂, m₂, d₂⟩ := b; obtain ⟨y₃, m₃, d₃⟩ := c
  simp only [dateLt] at *; omega

theorem dateLt_asymm {a b : Date} (h : dateLt a b) : ¬ dateLt b a := by
  obtain ⟨y₁, m₁, d₁⟩ := a; obtain ⟨y₂, m₂, d₂⟩ := b
  simp only [dateLt] at *; omega

theorem not_dateLe_of_lt {a b : Date} (h : dateLt a b) : ¬ dateLe b a := by
  rintro (h' | rfl)
  · exact dateLt_asymm h h'
  · exact dateLt_irrefl _ h

theorem dateLe_of_lt {a b : Date} (h : dateLt a b) : dateLe a b := Or.inl h

theorem one_le_daysInMonth (y m : ℕ) : 1 ≤ daysInMonth y m := by
  unfold daysInMonth
  split
  · split <;> omega
  · split <;> omega

theorem daysInMonth_dec (y : ℕ) : daysInMonth y 12 = 31 := by
  unfold daysInMonth; norm_num

theorem dateLt_succDay (d : Date) : dateLt d (succDay d) := by
  unfold succDay
  split
  · exact Or.inr ⟨rfl, Or.inr ⟨rfl, Nat.lt_succ_self _⟩⟩
  · split
    · exact Or.inr ⟨rfl, Or.inl (Nat.lt_succ_self _)⟩
    · exact Or.inl (Nat.lt_succ_self _)

theorem predDay_lt {d : Date} (h : ValidDate d) : dateLt (predDay d) d := by
  obtain ⟨hy, hm1, hm2, hd1, hd2⟩ := h
  unfold predDay
  split
  · exact Or.inr ⟨rfl, Or.inr ⟨rfl, show d.day - 1 < d.day by omega⟩⟩
  · split
    · exact Or.inr ⟨rfl, Or.inl (show d.month - 1 < d.month by omega)⟩
    · exact Or.inl (show d.year - 1 < d.year by omega)

theorem succDay_valid {d : Date} (h : ValidDate d) : ValidDate (succDay d) := by
  obtain ⟨y, m, dd⟩ := d
  obtain ⟨hy, hm1, hm2, hd1, hd2⟩ := h
  unfold succDay
  dsimp only at *
  split
  · unfold ValidDate; dsimp only; omega
  · split
    · unfold ValidDate; dsimp only
      have := one_le_daysInMonth y (m + 1); omega
    · unfold ValidDate; dsimp only
      have := one_le_daysInMonth (y + 1) 1; omega

theorem predDay_succDay {d : Date} (h : ValidDate d) :
    predDay (succDay d) = d := by
  obtain ⟨y, m, dd⟩ := d
  obtain ⟨hy, hm1, hm2, hd1, hd2⟩ := h
  dsimp only at *
  unfold succDay
  dsimp only
  split
  · unfold predDay
    dsimp only
    split
    · have h1 : dd + 1 - 1 = dd := by omega
      rw [h1]
    · omega
  · split
    · unfold predDay
      dsimp only
      split
      · omega
      · split
        · have h1 : m + 1 - 1 = m := by omega
          have h2 : daysInMonth y m = dd := by omega
          rw [h1, h2]
        · omega
    · unfold predDay
      dsimp only
      split
      · omega
      · have h12 : m = 12 := by omega
        subst h12
        simp only [daysInMonth_dec] at *
        have hdd : dd = 31 := by omega
        have hy1 : y + 1 - 1 = y := by omega
        rw [hdd, hy1]

theorem dateLt_addDays3 (d : Date) :
    dateLt d (addDays d 3) := by
  have h1 := dateLt_succDay d
  have h2 := dateLt_succDay (succDay d)
  have h3 := dateLt_succDay (succDay (succDay d))
  exact dateLt_trans (dateLt_trans h1 h2) h3

theorem subDays_two_succDay {d : Date} (h : ValidDate d) :
    subDays (succDay d) 2 = predDay d := by
  show predDay (predDay (succDay d)) = predDay d
  rw [predDay_succDay h]

theorem subDays_two_addDays3 {d : Date} (h : ValidDate d) :
    subDays (addDays d 3) 2 = succDay d := by
  show predDay (predDay (succDay (succDay (succDay d)))) = succDay d
  rw [predDay_succDay (succDay_valid (succDay_valid h)), predDay_succDay (succDay_valid h)]

theorem roundHalfEven_close (q : ℚ) :
    |q - ((roundHalfEven q : ℤ) : ℚ)| ≤ 1 / 2 := by
  have h1 : ((⌊q⌋ : ℤ) : ℚ) ≤ q := Int.floor_le q
  have h2 : q < ((⌊q⌋ : ℤ) : ℚ) + 1 := Int.lt_floor_add_one q
  simp only [roundHalfEven]
  split
  · rw [abs_le]; constructor <;> linarith
  · split
    · rw [abs_le]; constructor <;> push_cast <;> linarith
    · split
      · rw [abs_le]
        constructor <;> [linarith; skip]
        have : ¬ (q - ((⌊q⌋ : ℤ) : ℚ) < 1 / 2) := by assumption
        linarith [not_lt.mp this]
      · rw [abs_le]; constructor <;> push_cast <;> linarith

theorem round2_close (x : ℚ) : |x - round2 x| ≤ 1 / 200 := by
  have h := roundHalfEven_close (100 * x)
  rw [abs_le] at h ⊢
  unfold round2
  constructor <;> [linarith [h.1, h.2]; linarith [h.1, h.2]]

theorem isCent_round2 (x : ℚ) : IsCent (round2 x) :=
  ⟨roundHalfEven (100 * x), rfl⟩

theorem isCent_zero : IsCent 0 := ⟨0, by norm_num⟩

theorem isCent_add {a b : ℚ} (ha : IsCent a) (hb : IsCent b) : IsCent (a + b) := by
  obtain ⟨j, rfl⟩ := ha; obtain ⟨k, rfl⟩ := hb
  exact ⟨j + k, by push_cast; ring⟩

theorem isCent_neg {a : ℚ} (ha : IsCent a) : IsCent (-a) := by
  obtain ⟨j, rfl⟩ := ha
  exact ⟨-j, by push_cast; ring⟩

theorem isCent_sub {a b : ℚ} (ha : IsCent a) (hb : IsCent b) : IsCent (a - b) := by
  rw [sub_eq_add_neg]; exact isCent_add ha (isCent_neg hb)

theorem isCent_abs {a : ℚ} (ha : IsCent a) : IsCent |a| := by
  rcases abs_cases a with ⟨h, _⟩ | ⟨h, _⟩
  · rwa [h]
  · rw [h]; exact isCent_neg ha

theorem isCent_listSum (l : List ℚ) (h : ∀ x ∈ l, IsCent x) : IsCent l.sum := by
  induction l with
  | nil => simpa using isCent_zero
  | cons a t ih =>
    rw [List.sum_cons]
    exact isCent_add (h a (List.mem_cons_self a t)) (ih fun x hx => h x (List.mem_cons_of_mem a hx))

theorem isCent_min {x : ℚ} (hc : IsCent x) (hx : 0 < x) : 1 / 100 ≤ x := by
  obtain ⟨k, rfl⟩ := hc
  have hk : (0 : ℚ) < (k : ℚ) := by linarith
  have hk' : (0 : ℤ) < k := by exact_mod_cast hk
  have : (1 : ℚ) ≤ (k : ℚ) := by exact_mod_cast hk'
  linarith

/-- No point of the cent grid lies strictly between one grid point and the
next: a positive cent-grid value below one cent is impossible. -/
theorem cent_gap {x : ℚ} (hc : IsCent x) (h1 : 0 < x) (h2 : x < 1 / 100) : False := by
  have := isCent_min hc h1
  linarith

/-- If a candidate distance `|u₂ - t|` is strictly below the *rounded* stored
distance `round2 |u₁ - t|`, it is genuinely no larger than the exact stored
distance — provided both `u₁` and `u₂` lie on the cent grid. -/
theorem cent_dist_lt {u₁ u₂ t : ℚ} (h₁ : IsCent u₁) (h₂ : IsCent u₂)
    (h : |u₂ - t| < round2 |u₁ - t|) : |u₂ - t| ≤ |u₁ - t| := by
  by_contra hcon
  have hlt : |u₁ - t| < |u₂ - t| := lt_of_not_le hcon
  have hclose := round2_close |u₁ - t|
  rw [abs_le] at hclose
  have hr : IsCent (round2 |u₁ - t|) := isCent_round2 _
  rcases abs_cases (u₁ - t) with ⟨e₁, s₁⟩ | ⟨e₁, s₁⟩ <;>
    rcases abs_cases (u₂ - t) with ⟨e₂, s₂⟩ | ⟨e₂, s₂⟩
  · exact cent_gap (show IsCent (u₂ - u₁) from isCent_sub h₂ h₁)
      (by linarith) (by linarith)
  · exact cent_gap
      (show IsCent (round2 |u₁ - t| + round2 |u₁ - t| - (u₁ - u₂)) from
        isCent_sub (isCent_add hr hr) (isCent_sub h₁ h₂))
      (by linarith) (by linarith)
  · exact cent_gap
      (show IsCent (round2 |u₁ - t| + round2 |u₁ - t| - (u₂ - u₁)) from
        isCent_sub (isCent_add hr hr) (isCent_sub h₂ h₁))
      (by linarith) (by linarith)
  · exact cent_gap (show IsCent (u₁ - u₂) from isCent_sub h₁ h₂)
      (by linarith) (by linarith)

/-- If a candidate distance `|u₂ - t|` is at least the *rounded* stored
distance `round2 |u₁ - t|`, it is at least the exact stored distance —
provided both `u₁` and `u₂` lie on the cent grid. -/
theorem cent_dist_le {u₁ u₂ t : ℚ} (h₁ : IsCent u₁) (h₂ : IsCent u₂)
    (h : round2 |u₁ - t| ≤ |u₂ - t|) : |u₁ - t| ≤ |u₂ - t| := by
  by_contra hcon
  have hlt : |u₂ - t| < |u₁ - t| := lt_of_not_le hcon
  have hclose := round2_close |u₁ - t|
  rw [abs_le] at hclose
  have hr : IsCent (round2 |u₁ - t|) := isCent_round2 _
  rcases abs_cases (u₁ - t) with ⟨e₁, s₁⟩ | ⟨e₁, s₁⟩ <;>
    rcases abs_cases (u₂ - t) with ⟨e₂, s₂⟩ | ⟨e₂, s₂⟩
  · exact cent_gap (show IsCent (u₁ - u₂) from isCent_sub h₁ h₂)
      (by linarith) (by linarith)
  · exact cent_gap
      (show IsCent (u₁ - u₂ - (round2 |u₁ - t| + round2 |u₁ - t|)) from
        isCent_sub (isCent_sub h₁ h₂) (isCent_add hr hr))
      (by linarith) (by linarith)
  · exact cent_gap
      (show IsCent (u₂ - u₁ - (round2 |u₁ - t| + round2 |u₁ - t|)) from
        isCent_sub (isCent_sub h₂ h₁) (isCent_add hr hr))
      (by linarith) (by linarith)
  · exact cent_gap (show IsCent (u₂ - u₁) from isCent_sub h₂ h₁)
      (by linarith) (by linarith)

theorem fuzzyWindowHit_iff (ledger : List Expense) (target : Date)
    (importo : ℚ) (op : String) :
    fuzzyWindowHit ledger target importo op = true ↔
      ∃ e ∈ ledger, FuzzyClash e target importo op := by
  unfold fuzzyWindowHit
  rw [decide_eq_true_iff, List.countP_pos_iff]
  constructor
  · rintro ⟨e, he, hp⟩
    exact ⟨e, he, of_decide_eq_true hp⟩
  · rintro ⟨e, he, hp⟩
    exact ⟨e, he, decide_eq_true hp⟩

theorem fuzzyWindowHit_eq_false (ledger : List Expense) (target : Date)
    (importo : ℚ) (op : String)
    (h : ∀ e ∈ ledger, ¬ FuzzyClash e target importo op) :
    fuzzyWindowHit ledger target importo op = false := by
  rw [← Bool.not_eq_true, fuzzyWindowHit_iff]
  rintro ⟨e, he, hp⟩
  exact h e he hp

theorem dOf_eq {r : RawRow} {d : Date} (hd : rowDate r = some d) : dOf r = d := by
  simp [dOf, hd]

theorem processRow_of_rowDate (kws : List String) (st : IngestState) (r : RawRow)
    (d : Date) (hd : rowDate r = some d) :
    processRow kws st r = processParsed kws st r d := by
  cases hr : r.data with
  | missing => simp [rowDate, hr] at hd
  | dt dd =>
    have : dd = d := by simpa [rowDate, hr] using hd
    subst this
    simp [processRow, hr]
  | str s =>
    have hps : parseAnyDate s = some d := by simpa [rowDate, hr] using hd
    simp [processRow, hr, hps]
  | other => simp [rowDate, hr] at hd

theorem processRow_insert (kws : List String) (st : IngestState) (r : RawRow)
    (hv : ValidRow r)
    (hex : ∀ e ∈ st.ledger, e.hash_id ≠ hashOf r)
    (hfz : ∀ e ∈ st.ledger, ¬ FuzzyClash e (dOf r) (rowImporto r) (rowOp r)) :
    processRow kws st r =
      { ledger := st.ledger ++ [mkExp kws st.nextId r],
        nextId := st.nextId + 1,
        stats := { st.stats with new := st.stats.new + 1 } } := by
  obtain ⟨⟨d, hd⟩, hop1, hop2⟩ := hv
  have hdo : dOf r = d := dOf_eq hd
  rw [processRow_of_rowDate kws st r d hd]
  unfold processParsed
  rw [if_neg (show ¬(pyStrip r.operazione = "" ∨ pyStrip r.operazione = "nan") from by
    rw [show pyStrip r.operazione = rowOp r from rfl]
    push_neg
    exact ⟨hop1, hop2⟩)]
  rw [if_neg (show ¬((st.ledger.any fun e =>
      e.hash_id == generate_hash (fmtDate d) (parse_importo r.importo)
        (pyStrip r.operazione) (normField r.conto_carta)) = true) from by
    rw [Bool.not_eq_true, List.any_eq_false]
    intro e he
    rw [Bool.not_eq_true, beq_eq_false_iff_ne]
    have := hex e he
    rw [hashOf, hdo] at this
    exact this)]
  rw [if_neg (show ¬(fuzzyWindowHit st.ledger d (parse_importo r.importo)
      (pyStrip r.operazione) = true) from by
    rw [Bool.not_eq_true]
    apply fuzzyWindowHit_eq_false
    intro e he
    have := hfz e he
    rw [hdo] at this
    exact this)]
  simp only [mkExp, hashOf, hdo, rowOp, rowImporto]

theorem processRow_dup (kws : List String) (st : IngestState) (r : RawRow)
    (hv : ValidRow r)
    (hex : ∃ e ∈ st.ledger, e.hash_id = hashOf r) :
    processRow kws st r =
      { st with stats := { st.stats with duplicates := st.stats.duplicates + 1 } } := by
  obtain ⟨⟨d, hd⟩, hop1, hop2⟩ := hv
  have hdo : dOf r = d := dOf_eq hd
  rw [processRow_of_rowDate kws st r d hd]
  unfold processParsed
  rw [if_neg (show ¬(pyStrip r.operazione = "" ∨ pyStrip r.operazione = "nan") from by
    rw [show pyStrip r.operazione = rowOp r from rfl]
    push_neg
    exact ⟨hop1, hop2⟩)]
  rw [if_pos (show (st.ledger.any fun e =>
      e.hash_id == generate_hash (fmtDate d) (parse_importo r.importo)
        (pyStrip r.operazione) (normField r.conto_carta)) = true from by
    rw [List.any_eq_true]
    obtain ⟨e, he, heq⟩ := hex
    refine ⟨e, he, ?_⟩
    rw [beq_iff_eq, heq, hashOf, hdo]
    rfl)]

theorem processRow_error (kws : List String) (st : IngestState) (r : RawRow)
    (s : String) (hs : r.data = .str s) (hp : parseAnyDate s = none) :
    processRow kws st r =
      { st with stats := { st.stats with errors := st.stats.errors + 1 } } := by
  simp [processRow, hs, hp]

theorem processRow_fuzzy (kws : List String) (st : IngestState) (r : RawRow)
    (hv : ValidRow r)
    (hex : ∀ e ∈ st.ledger, e.hash_id ≠ hashOf r)
    (hfz : fuzzyWindowHit st.ledger (dOf r) (rowImporto r) (rowOp r) = true) :
    processRow kws st r =
      { st with stats :=
          { st.stats with
            duplicates := st.stats.duplicates + 1,
            fuzzy_matches := st.stats.fuzzy_matches ++ [(dOf r, rowOp r, rowImporto r)] } } := by
  obtain ⟨⟨d, hd⟩, hop1, hop2⟩ := hv
  have hdo : dOf r = d := dOf_eq hd
  rw [processRow_of_rowDate kws st r d hd]
  unfold processParsed
  rw [if_neg (show ¬(pyStrip r.operazione = "" ∨ pyStrip r.operazione = "nan") from by
    rw [show pyStrip r.operazione = rowOp r from rfl]
    push_neg
    exact ⟨hop1, hop2⟩)]
  rw [if_neg (show ¬((st.ledger.any fun e =>
      e.hash_id == generate_hash (fmtDate d) (parse_importo r.importo)
        (pyStrip r.operazione) (normField r.conto_carta)) = true) from by
    rw [Bool.not_eq_true, List.any_eq_false]
    intro e he
    rw [Bool.not_eq_true, beq_eq_false_iff_ne]
    have := hex e he
    rw [hashOf, hdo] at this
    exact this)]
  rw [hdo] at hfz
  rw [if_pos (show fuzzyWindowHit st.ledger d (parse_importo r.importo)
      (pyStrip r.operazione) = true from hfz)]
  rw [hdo]
  rfl

theorem fuzzyClash_mkExp_iff (kws : List String) (i : ℕ) (a b : RawRow) :
    FuzzyClash (mkExp kws i a) (dOf b) (rowImporto b) (rowOp b) ↔ RowClash a b := by
  unfold FuzzyClash RowClash mkExp
  tauto

theorem foldl_all_new (kws : List String) (rows : List RawRow) :
    ∀ (st : IngestState),
    (∀ r ∈ rows, ValidRow r) →
    List.Pairwise (fun a b => hashOf a ≠ hashOf b) rows →
    List.Pairwise (fun a b => ¬ RowClash a b) rows →
    (∀ r ∈ rows, ∀ e ∈ st.ledger, e.hash_id ≠ hashOf r) →
    (∀ r ∈ rows, ∀ e ∈ st.ledger, ¬ FuzzyClash e (dOf r) (rowImporto r) (rowOp r)) →
    rows.foldl (processRow kws) st =
      { ledger := st.ledger ++ insFrom kws st.nextId rows,
        nextId := st.nextId + rows.length,
        stats := { st.stats with new := st.stats.new + rows.length } } := by
  induction rows with
  | nil =>
    intro st _ _ _ _ _
    simp [insFrom]
  | cons r rs ih =>
    intro st hval hph hpf hex hfz
    rw [List.foldl_cons]
    rw [processRow_insert kws st r (hval r (List.mem_cons_self r rs))
      (hex r (List.mem_cons_self r rs)) (hfz r (List.mem_cons_self r rs))]
    rw [ih _ (fun x hx => hval x (List.mem_cons_of_mem r hx))
      (List.Pairwise.of_cons hph) (List.Pairwise.of_cons hpf)
      (by
        intro x hx e he
        rcases List.mem_append.mp he with h1 | h2
        · exact hex x (List.mem_cons_of_mem r hx) e h1
        · rcases List.mem_singleton.mp h2 with rfl
          have h3 : hashOf r ≠ hashOf x := (List.pairwise_cons.mp hph).1 x hx
          simpa [mkExp] using h3)
      (by
        intro x hx e he
        rcases List.mem_append.mp he with h1 | h2
        · exact hfz x (List.mem_cons_of_mem r hx) e h1
        · rcases List.mem_singleton.mp h2 with rfl
          rw [fuzzyClash_mkExp_iff]
          exact (List.pairwise_cons.mp hpf).1 x hx)]
    simp only [insFrom, List.append_assoc, List.singleton_append, List.length_cons]
    congr 1
    · omega
    · congr 1
      omega

theorem foldl_all_dup (kws : List String) (rows : List RawRow) :
    ∀ (st : IngestState),
    (∀ r ∈ rows, ValidRow r) →
    (∀ r ∈ rows, ∃ e ∈ st.ledger, e.hash_id = hashOf r) →
    rows.foldl (processRow kws) st =
      { st with stats :=
          { st.stats with duplicates := st.stats.duplicates + rows.length } } := by
  induction rows with
  | nil =>
    intro st _ _
    simp
  | cons r rs ih =>
    intro st hval hmem
    rw [List.foldl_cons]
    rw [processRow_dup kws st r (hval r (List.mem_cons_self r rs))
      (hmem r (List.mem_cons_self r rs))]
    have hstep := ih
      { st with stats := { st.stats with duplicates := st.stats.duplicates + 1 } }
      (fun x hx => hval x (List.mem_cons_of_mem r hx))
      (fun x hx => hmem x (List.mem_cons_of_mem r hx))
    rw [hstep]
    simp only [List.length_cons]
    congr 1
    congr 1
    omega

theorem hashOf_mem_insFrom (kws : List String) (rows : List RawRow) :
    ∀ (i : ℕ) (r : RawRow), r ∈ rows →
    ∃ e ∈ insFrom kws i rows, e.hash_id = hashOf r := by
  induction rows with
  | nil => intro i r hr; cases hr
  | cons a rs ih =>
    intro i r hr
    rcases List.mem_cons.mp hr with rfl | hr'
    · exact ⟨mkExp kws i r, List.mem_cons_self _ _, rfl⟩
    · obtain ⟨e, he, heq⟩ := ih (i + 1) r hr'
      exact ⟨e, List.mem_cons_of_mem _ he, heq⟩

theorem ledgerInv_append (l : List Expense) (nid : ℕ) (e : Expense)
    (h : LedgerInv l nid) (he : ∀ x ∈ l, x.hash_id ≠ e.hash_id)
    (hid : e.id = nid) : LedgerInv (l ++ [e]) (nid + 1) := by
  obtain ⟨h1, h2, h3⟩ := h
  refine ⟨?_, ?_, ?_⟩
  · rw [List.pairwise_append]
    refine ⟨h1, by simp, fun a ha b hb => ?_⟩
    rcases List.mem_singleton.mp hb with rfl
    exact he a ha
  · rw [List.pairwise_append]
    refine ⟨h2, by simp, fun a ha b hb => ?_⟩
    rcases List.mem_singleton.mp hb with rfl
    rw [hid]
    exact Nat.ne_of_lt (h3 a ha)
  · intro x hx
    rcases List.mem_append.mp hx with hx1 | hx2
    · exact Nat.lt_succ_of_lt (h3 x hx1)
    · rcases List.mem_singleton.mp hx2 with rfl
      omega

theorem ledgerInv_map_update (l : List Expense) (nid eid : ℕ)
    (upd : Expense → Expense)
    (hid : ∀ e, (upd e).id = e.id)
    (hinv : LedgerInv l nid)
    (hnc : ∀ e ∈ l, e.id ≠ eid → ∀ e', e.hash_id ≠ (upd e').hash_id) :
    LedgerInv (l.map fun e => if e.id = eid then upd e else e) nid := by
  obtain ⟨h1, h2, h3⟩ := hinv
  have hcomb := h1.and h2
  refine ⟨?_, ?_, ?_⟩
  · rw [List.pairwise_map]
    refine List.Pairwise.imp_of_mem ?_ hcomb
    intro a b ha hb hab
    by_cases haid : a.id = eid <;> by_cases hbid : b.id = eid
    · exact absurd (haid.trans hbid.symm) hab.2
    · simp only [if_pos haid, if_neg hbid]
      exact fun hh => hnc b hb hbid a hh.symm
    · simp only [if_neg haid, if_pos hbid]
      exact hnc a ha haid b
    · simp only [if_neg haid, if_neg hbid]
      exact hab.1
  · rw [List.pairwise_map]
    refine List.Pairwise.imp_of_mem ?_ hcomb
    intro a b _ _ hab
    by_cases haid : a.id = eid <;> by_cases hbid : b.id = eid
    · exact absurd (haid.trans hbid.symm) hab.2
    · simpa [if_pos haid, if_neg hbid, hid a] using hab.2
    · simpa [if_neg haid, if_pos hbid, hid b] using hab.2
    · simpa [if_neg haid, if_neg hbid] using hab.2
  · intro x hx
    obtain ⟨e, he, rfl⟩ := List.mem_map.mp hx
    by_cases heid : e.id = eid
    · rw [if_pos heid, hid]
      exact h3 e he
    · rw [if_neg heid]
      exact h3 e he

theorem processParsed_inv (kws : List String) (st : IngestState) (r : RawRow)
    (d : Date) (h : LedgerInv st.ledger st.nextId) :
    LedgerInv (processParsed kws st r d).ledger (processParsed kws st r d).nextId := by
  unfold processParsed
  dsimp only
  split
  · exact h
  · split
    · exact h
    · split
      · exact h
      · rename_i hguard _
        refine ledgerInv_append _ _ _ h ?_ rfl
        intro x hx
        rw [Bool.not_eq_true, List.any_eq_false] at hguard
        have := hguard x hx
        rwa [Bool.not_eq_true, beq_eq_false_iff_ne] at this

theorem processRow_inv (kws : List String) (st : IngestState) (r : RawRow)
    (h : LedgerInv st.ledger st.nextId) :
    LedgerInv (processRow kws st r).ledger (processRow kws st r).nextId := by
  cases hr : r.data with
  | missing =>
    have he : processRow kws st r = st := by simp [processRow, hr]
    rw [he]; exact h
  | other =>
    have he : processRow kws st r =
        { st with stats := { st.stats with errors := st.stats.errors + 1 } } := by
      simp [processRow, hr]
    rw [he]; exact h
  | dt d =>
    have he : processRow kws st r = processParsed kws st r d := by
      simp [processRow, hr]
    rw [he]; exact processParsed_inv kws st r d h
  | str s =>
    cases hp : parseAnyDate s with
    | some d =>
      have he : processRow kws st r = processParsed kws st r d := by
        simp [processRow, hr, hp]
      rw [he]; exact processParsed_inv kws st r d h
    | none =>
      have he : processRow kws st r =
          { st with stats := { st.stats with errors := st.stats.errors + 1 } } := by
        simp [processRow, hr, hp]
      rw [he]; exact h

theorem foldl_processRow_inv (kws : List String) (rows : List RawRow) :
    ∀ (st : IngestState), LedgerInv st.ledger st.nextId →
    LedgerInv (rows.foldl (processRow kws) st).ledger
      (rows.foldl (processRow kws) st).nextId := by
  induction rows with
  | nil => intro st h; exact h
  | cons r rs ih =>
    intro st h
    rw [List.foldl_cons]
    exact ih _ (processRow_inv kws st r h)

theorem create_expense_inv (db : Db) (dv op cat conto : String) (imp : PyVal)
    (h : LedgerInv db.ledger db.nextId) :
    LedgerInv (create_expense db dv op cat conto imp).1.ledger
      (create_expense db dv op cat conto imp).1.nextId := by
  unfold create_expense
  dsimp only
  split
  · exact h
  · split
    · exact h
    · split
      · exact h
      · rename_i hguard
        refine ledgerInv_append _ _ _ h ?_ rfl
        intro x hx
        rw [Bool.not_eq_true, List.any_eq_false] at hguard
        have := hguard x hx
        rwa [Bool.not_eq_true, beq_eq_false_iff_ne] at this

theorem update_expense_inv (db : Db) (eid : ℕ) (dv op cat conto : String)
    (imp : PyVal) (h : LedgerInv db.ledger db.nextId) :
    LedgerInv (update_expense db eid dv op cat conto imp).1.ledger
      (update_expense db eid dv op cat conto imp).1.nextId := by
  unfold update_expense
  dsimp only
  split
  · exact h
  · split
    · exact h
    · split
      · split
        · exact h
        · rename_i hguard
          refine ledgerInv_map_update db.ledger db.nextId eid _
            (fun e => rfl) h ?_
          intro e he heid e'
          rw [Bool.not_eq_true, List.any_eq_false] at hguard
          have hthis := hguard e he
          rw [Bool.not_eq_true] at hthis
          intro hh
          dsimp only at hh
          rw [beq_iff_eq.mpr hh, bne_iff_ne.mpr heid] at hthis
          simp at hthis
      · exact h

theorem mem_runsList_iff (es : List UnpaidMonth) (c : List UnpaidMonth) :
    c ∈ runsList es ↔
      ∃ i k, i + k ≤ es.length ∧ 1 ≤ k ∧ k ≤ 4 ∧ c = (es.drop i).take k := by
  unfold runsList
  rw [List.mem_flatMap]
  constructor
  · rintro ⟨i, hi, hc⟩
    rw [List.mem_map] at hc
    obtain ⟨j, hj, rfl⟩ := hc
    rw [List.mem_range] at hi hj
    exact ⟨i, j + 1, by omega, by omega, by omega, rfl⟩
  · rintro ⟨i, k, h1, h2, h3, rfl⟩
    refine ⟨i, ?_, ?_⟩
    · rw [List.mem_range]; omega
    · rw [List.mem_map]
      refine ⟨k - 1, by rw [List.mem_range]; omega, ?_⟩
      congr 1
      omega

theorem mem_of_mem_runsList {es c : List UnpaidMonth}
    (hc : c ∈ runsList es) : ∀ m ∈ c, m ∈ es := by
  rw [mem_runsList_iff] at hc
  obtain ⟨i, k, _, _, _, rfl⟩ := hc
  intro m hm
  exact List.drop_subset i es (List.take_subset k _ hm)

theorem isCent_sumAmounts {es : List UnpaidMonth}
    (h : ∀ m ∈ es, IsCent m.amount) (c : List UnpaidMonth)
    (hc : ∀ m ∈ c, m ∈ es) : IsCent (sumAmounts c) := by
  unfold sumAmounts
  refine isCent_listSum _ ?_
  intro x hx
  obtain ⟨m, hm, rfl⟩ := List.mem_map.mp hx
  exact h m (hc m hm)

theorem stepBest_good (tx tol : ℚ) (cs : List (List UnpaidMonth))
    (b : Option BestMatch) (c : List UnpaidMonth)
    (hcb : ∀ x ∈ cs, IsCent (sumAmounts x))
    (hcc : IsCent (sumAmounts c))
    (hb : GoodBest tx tol cs b) :
    GoodBest tx tol (cs ++ [c]) (stepBest tx tol b c) := by
  cases b with
  | none =>
    unfold stepBest
    dsimp only
    split
    · rename_i hcond
      have hq : rdiff tx c ≤ tol := hcond
      refine ⟨List.mem_append.mpr (Or.inr (List.mem_singleton.mpr rfl)), hq, rfl, rfl, ?_⟩
      intro c' hc' hq'
      rcases List.mem_append.mp hc' with h1 | h2
      · exact absurd hq' (hb c' h1)
      · rcases List.mem_singleton.mp h2 with rfl
        exact le_refl _
    · rename_i hcond
      intro c' hc'
      rcases List.mem_append.mp hc' with h1 | h2
      · exact hb c' h1
      · rcases List.mem_singleton.mp h2 with rfl
        exact fun hq => hcond hq
  | some bb =>
    obtain ⟨hmem, hq, hdiff, htot, hmin⟩ := hb
    unfold stepBest
    dsimp only
    split
    · rename_i hcond
      have hc12 : rdiff tx c ≤ tol ∧ rdiff tx c < bb.diff := hcond
      have hle : rdiff tx c ≤ rdiff tx bb.months := by
        have hu1 : IsCent (|sumAmounts bb.months|) := isCent_abs (hcb _ hmem)
        have hu2 : IsCent (|sumAmounts c|) := isCent_abs hcc
        have hlt2 := hc12.2
        rw [hdiff] at hlt2
        exact cent_dist_lt hu1 hu2 hlt2
      refine ⟨List.mem_append.mpr (Or.inr (List.mem_singleton.mpr rfl)), hc12.1,
        rfl, rfl, ?_⟩
      intro c' hc' hq'
      rcases List.mem_append.mp hc' with h1 | h2
      · exact le_trans hle (hmin c' h1 hq')
      · rcases List.mem_singleton.mp h2 with rfl
        exact le_refl _
    · rename_i hcond
      refine ⟨List.mem_append.mpr (Or.inl hmem), hq, hdiff, htot, ?_⟩
      intro c' hc' hq'
      rcases List.mem_append.mp hc' with h1 | h2
      · exact hmin c' h1 hq'
      · rcases List.mem_singleton.mp h2 with rfl
        have hge : bb.diff ≤ rdiff tx c' := by
          by_contra hx
          exact hcond ⟨hq', lt_of_not_le hx⟩
        rw [hdiff] at hge
        exact cent_dist_le (isCent_abs (hcb _ hmem)) (isCent_abs hcc) hge

theorem foldl_stepBest_good (tx tol : ℚ) (rs : List (List UnpaidMonth)) :
    ∀ (cs : List (List UnpaidMonth)) (b : Option BestMatch),
    (∀ x ∈ cs ++ rs, IsCent (sumAmounts x)) →
    GoodBest tx tol cs b →
    GoodBest tx tol (cs ++ rs) (rs.foldl (stepBest tx tol) b) := by
  induction rs with
  | nil =>
    intro cs b _ hb
    simpa using hb
  | cons c rs ih =>
    intro cs b hcent hb
    rw [List.foldl_cons]
    have h1 : GoodBest tx tol (cs ++ [c]) (stepBest tx tol b c) :=
      stepBest_good tx tol cs b c
        (fun x hx => hcent x (List.mem_append.mpr (Or.inl hx)))
        (hcent c (List.mem_append.mpr (Or.inr (List.mem_cons_self c rs)))) hb
    have h2 := ih (cs ++ [c]) (stepBest tx tol b c)
      (by
        intro x hx
        apply hcent
        rw [List.append_assoc, List.singleton_append] at hx
        exact hx) h1
    rw [List.append_assoc, List.singleton_append] at h2
    exact h2

theorem detectBest_good (es : List UnpaidMonth) (tx tol : ℚ)
    (hcent : ∀ m ∈ es, IsCent m.amount) :
    GoodBest tx tol (runsList es) (detectBest es tx tol) := by
  have h0 : GoodBest tx tol [] none := by
    intro c hc
    cases hc
  have h := foldl_stepBest_good tx tol (runsList es) [] none
    (by
      intro x hx
      rw [List.nil_append] at hx
      exact isCent_sumAmounts hcent x (mem_of_mem_runsList hx)) h0
  rw [List.nil_append] at h
  exact h

theorem foldl_stepBest_mem (tx tol : ℚ) (rs : List (List UnpaidMonth)) :
    ∀ (b : Option BestMatch) (bb : BestMatch),
    rs.foldl (stepBest tx tol) b = some bb →
    (∃ b₀, b = some b₀ ∧ b₀.months = bb.months) ∨ bb.months ∈ rs := by
  induction rs with
  | nil =>
    intro b bb h
    rw [List.foldl_nil] at h
    exact Or.inl ⟨bb, h, rfl⟩
  | cons c rs ih =>
    intro b bb h
    rw [List.foldl_cons] at h
    rcases ih (stepBest tx tol b c) bb h with ⟨b₀, hb₀, hm⟩ | hmem
    · unfold stepBest at hb₀
      dsimp only at hb₀
      split at hb₀
      · rcases Option.some.inj hb₀ with rfl
        right
        rw [← hm]
        exact List.mem_cons_self c rs
      · exact Or.inl ⟨b₀, hb₀, hm⟩
    · right
      exact List.mem_cons_of_mem c hmem

theorem detectBest_months_mem (es : List UnpaidMonth) (tx tol : ℚ)
    (bb : BestMatch) (h : detectBest es tx tol = some bb) :
    bb.months ∈ runsList es := by
  rcases foldl_stepBest_mem tx tol (runsList es) none bb h with ⟨b₀, hb₀, _⟩ | hm
  · cases hb₀
  · exact hm

/-- Claim C1 (code bug): schema initialization is claimed to create every
table the core operates on, including the sender table read by the sender
CRUD endpoints and `detect_rimborso`.  `init_db` does create the ledger
table with its unique fingerprint column, the unique keyword table and the
`(month, year)`-keyed month-status table, and `detect_rimborso` does read
the sender table `rimborso_mittenti` — but `init_db` never creates
`rimborso_mittenti` (it creates the legacy `rimborso_settings` instead), so
on a fresh database every sender query fails with "no such table". -/
theorem init_db_missing_sender_table :
    (∃ t ∈ init_db, t.name = "expenses" ∧ "hash_id" ∈ t.uniqueCols) ∧
    (∃ t ∈ init_db, t.name = "neutral_keywords" ∧ "keyword" ∈ t.uniqueCols) ∧
    (∃ t ∈ init_db, t.name = "monthly_status" ∧ t.primaryKey = ["month", "year"]) ∧
    senderTableName ∈ detectRimborsoTablesRead ∧
    senderTableName ∉ init_db.map TableDef.name := by
  refine ⟨?_, ?_, ?_, ?_, ?_⟩ <;> decide

/-- Claim C2: a month is an eligible candidate for a transfer exactly when
it is unpaid and its notional end (the 28th) is chronologically strictly
before the transfer's date; a transfer dated on or before the 28th of a
month never has that month eligible; and every month of an emitted best
match satisfies the strict-precedence condition. -/
theorem eligible_months_strictly_precede :
    (∀ (unpaid : List UnpaidMonth) (txDate : Date) (m : UnpaidMonth),
      m ∈ eligibleMonths unpaid txDate ↔
        m ∈ unpaid ∧ dateLt ⟨m.year, m.month, 28⟩ txDate) ∧
    (∀ (unpaid : List UnpaidMonth) (y mo dd : ℕ) (m : UnpaidMonth),
      dd ≤ 28 → m.year = y → m.month = mo →
      m ∉ eligibleMonths unpaid ⟨y, mo, dd⟩) ∧
    (∀ (unpaid : List UnpaidMonth) (txDate : Date) (a tol : ℚ) (b : BestMatch),
      detectForTx unpaid txDate a tol = some b →
      ∀ m ∈ b.months, dateLt ⟨m.year, m.month, 28⟩ txDate) := by
  have hmemiff : ∀ (unpaid : List UnpaidMonth) (txDate : Date) (m : UnpaidMonth),
      m ∈ eligibleMonths unpaid txDate ↔
        m ∈ unpaid ∧ dateLt ⟨m.year, m.month, 28⟩ txDate := by
    intro unpaid txDate m
    unfold eligibleMonths
    rw [List.mem_filter, decide_eq_true_iff]
  refine ⟨hmemiff, ?_, ?_⟩
  · intro unpaid y mo dd m hdd hy hmo hmem
    have h := ((hmemiff unpaid ⟨y, mo, dd⟩ m).mp hmem).2
    rw [hy, hmo] at h
    simp only [dateLt] at h
    omega
  · intro unpaid txDate a tol b hb m hm
    have h1 : b.months ∈ runsList (sortMonths (eligibleMonths unpaid txDate)) :=
      detectBest_months_mem _ a tol b hb
    have h2 : m ∈ sortMonths (eligibleMonths unpaid txDate) :=
      mem_of_mem_runsList h1 m hm
    have h3 : m ∈ eligibleMonths unpaid txDate := by
      unfold sortMonths at h2
      exact List.mem_mergeSort.mp h2
    exact ((hmemiff unpaid txDate m).mp h3).2

/-- Claim C2 witness: for a transfer dated 2025-03-28, the unpaid month
(2025, 3) itself is not eligible. -/
theorem eligible_months_strictly_precede_witness :
    (⟨2025, 3, (-50 : ℚ)⟩ : UnpaidMonth) ∉
      eligibleMonths [⟨2025, 3, -50⟩] ⟨2025, 3, 28⟩ :=
  eligible_months_strictly_precede.2.1 [⟨2025, 3, -50⟩] 2025 3 28
    ⟨2025, 3, -50⟩ (by norm_num) rfl rfl

/-- Claim C3 (corrected): the separator policy on the three unambiguous
examples is as claimed, but the dot-only input `"1.234"` is left as-is and
parses as the decimal `1.234`, not as the thousands-grouped `1234`. -/
theorem parse_importo_separator_policy :
    parse_importo (.str "1.200,50") = 1200.5 ∧
    parse_importo (.str "10,3") = 10.3 ∧
    parse_importo (.str "-45.00") = -45 ∧
    parse_importo (.str "1.234") = 1.234 := by
  refine ⟨?_, ?_, ?_, ?_⟩ <;> with_unfolding_all decide

/-- Claim C3 counterexample: `parse_importo "1.234"` is `1.234`, which is
not the `1234` the claim demands. -/
theorem parse_importo_dot_only_counterexample :
    parse_importo (.str "1.234") = 1.234 ∧ (1.234 : ℚ) ≠ 1234 := by
  constructor
  · with_unfolding_all decide
  · norm_num

/-- Claim C10: if the candidate's date string does not parse as
`YYYY-MM-DD`, the fuzzy-duplicate check returns `false` rather than
raising, for every ledger, amount and description. -/
theorem check_fuzzy_malformed_date_false (ledger : List Expense) (s : String)
    (imp : ℚ) (op : String) (h : parseDateYMD s = none) :
    check_fuzzy_duplicate ledger s imp op = false := by
  unfold check_fuzzy_duplicate
  rw [h]

/-- Claim C10 witness: month 13 does not parse, so the check is `false`. -/
theorem check_fuzzy_malformed_date_false_witness :
    parseDateYMD "2024-13-05" = none ∧
    check_fuzzy_duplicate [] "2024-13-05" 10 "bar" = false :=
  ⟨by with_unfolding_all decide,
   check_fuzzy_malformed_date_false [] "2024-13-05" 10 "bar"
     (by with_unfolding_all decide)⟩

/-- Claim C7 (corrected): neutral classification is exact full-equality —
`check_neutral` is true exactly when the lower-cased, trimmed description
equals some *lower-cased* keyword of the set (the source lower-cases stored
keywords but does not trim them; for keyword sets whose members carry no
surrounding whitespace — which is every set reachable through the API,
since both write paths strip before inserting — this coincides with the
claimed trimmed-and-lowered equality).  A description merely containing a
keyword as a proper substring is not neutral. -/
theorem check_neutral_exact_match :
    (∀ (op : String) (stored : List String),
      check_neutral op (get_neutral_keywords stored) = true ↔
        ∃ k ∈ stored, pyLower (pyStrip op) = pyLower k) ∧
    (∀ (op : String) (stored : List String),
      (∀ k ∈ stored, pyStrip k = k) →
      (check_neutral op (get_neutral_keywords stored) = true ↔
        ∃ k ∈ stored, pyLower (pyStrip op) = pyLower (pyStrip k))) ∧
    check_neutral "bonifico a favore" (get_neutral_keywords ["bonifico"]) = false := by
  have hbase : ∀ (op : String) (stored : List String),
      check_neutral op (get_neutral_keywords stored) = true ↔
        ∃ k ∈ stored, pyLower (pyStrip op) = pyLower k := by
    intro op stored
    unfold check_neutral get_neutral_keywords
    rw [List.elem_iff, List.mem_map]
    constructor
    · rintro ⟨k, hk, heq⟩
      exact ⟨k, hk, heq.symm⟩
    · rintro ⟨k, hk, heq⟩
      exact ⟨k, hk, heq.symm⟩
  refine ⟨hbase, ?_, ?_⟩
  · intro op stored htrim
    rw [hbase op stored]
    constructor
    · rintro ⟨k, hk, heq⟩
      exact ⟨k, hk, by rw [htrim k hk]; exact heq⟩
    · rintro ⟨k, hk, heq⟩
      refine ⟨k, hk, ?_⟩
      rw [htrim k hk] at heq
      exact heq
  · with_unfolding_all decide

/-- Claim C7 witness: on a trimmed stored keyword set the classification is
exactly trimmed-and-lowered equality. -/
theorem check_neutral_exact_match_witness :
    (∀ k ∈ ["bonifico"], pyStrip k = k) ∧
    (check_neutral " Bonifico " (get_neutral_keywords ["bonifico"]) = true ↔
      ∃ k ∈ ["bonifico"], pyLower (pyStrip " Bonifico ") = pyLower (pyStrip k)) :=
  ⟨by intro k hk; fin_cases hk; with_unfolding_all decide,
   check_neutral_exact_match.2.1 " Bonifico " ["bonifico"]
     (by intro k hk; fin_cases hk; with_unfolding_all decide)⟩

/-- Claim C7 counterexample: `get_neutral_keywords` lower-cases but does
not trim, so for the stored keyword `" x"` the description `"x"` — equal
to it after trimming and lowering both — is not classified neutral,
contradicting the claim's characterization on this keyword set. -/
theorem check_neutral_untrimmed_keyword_counterexample :
    check_neutral "x" (get_neutral_keywords [" x"]) = false ∧
    pyLower (pyStrip "x") = pyLower (pyStrip " x") := by
  constructor <;> with_unfolding_all decide

/-- Claim C4: the window search examines exactly the contiguous runs of 1–4
consecutive months by index in the sorted eligible list, and (for eligible
months whose totals lie on the cent grid, as `detect_rimborso` guarantees
by rounding each month total to 2 decimals) emits as best match a run whose
`diff = |(|sum|) - transferAmount|` is within tolerance and minimal among
all such runs; on Jan = -100, Feb = -150, Mar = -80 with a transfer of +250
and tolerance 5 it selects `{Jan, Feb}` with diff 0. -/
theorem detect_best_window :
    (∀ (es c : List UnpaidMonth),
      c ∈ runsList es ↔
        ∃ i k, i + k ≤ es.length ∧ 1 ≤ k ∧ k ≤ 4 ∧ c = (es.drop i).take k) ∧
    (∀ (es : List UnpaidMonth) (tx tol : ℚ),
      (∀ m ∈ es, IsCent m.amount) →
      (∀ b, detectBest es tx tol = some b →
        b.months ∈ runsList es ∧ rdiff tx b.months ≤ tol ∧
        ∀ c ∈ runsList es, rdiff tx c ≤ tol → rdiff tx b.months ≤ rdiff tx c) ∧
      (detectBest es tx tol = none → ∀ c ∈ runsList es, ¬ rdiff tx c ≤ tol)) ∧
    detectBest [janEx, febEx, marEx] 250 5 =
      some ⟨[janEx, febEx], -250, 0⟩ := by
  refine ⟨mem_runsList_iff, ?_, ?_⟩
  · intro es tx tol hcent
    have hg := detectBest_good es tx tol hcent
    constructor
    · intro b hb
      rw [hb] at hg
      exact ⟨hg.1, hg.2.1, hg.2.2.2.2⟩
    · intro hn
      rw [hn] at hg
      exact hg
  · with_unfolding_all decide

/-- Claim C4 witness: the general window property applied to the concrete
example months of the claim. -/
theorem detect_best_window_witness :
    (∀ m ∈ [janEx, febEx, marEx], IsCent m.amount) ∧
    ((∀ b, detectBest [janEx, febEx, marEx] 250 5 = some b →
        b.months ∈ runsList [janEx, febEx, marEx] ∧ rdiff 250 b.months ≤ 5 ∧
        ∀ c ∈ runsList [janEx, febEx, marEx], rdiff 250 c ≤ 5 →
          rdiff 250 b.months ≤ rdiff 250 c) ∧
      (detectBest [janEx, febEx, marEx] 250 5 = none →
        ∀ c ∈ runsList [janEx, febEx, marEx], ¬ rdiff 250 c ≤ 5)) :=
  have hcent : ∀ m ∈ [janEx, febEx, marEx], IsCent m.amount := by
    intro m hm
    fin_cases hm
    · exact ⟨-10000, by norm_num [janEx]⟩
    · exact ⟨-15000, by norm_num [febEx]⟩
    · exact ⟨-8000, by norm_num [marEx]⟩
  ⟨hcent, detect_best_window.2.1 [janEx, febEx, marEx] 250 5 hcent⟩

/-- Claim C5: a row is rejected as a fuzzy duplicate exactly when some
ledger row (regardless of fingerprint) has equal amount, normalised-equal
description, and a date within the inclusive ±2-day window; consequently,
against a ledger holding `(d, a, desc)`, a candidate `(d+1, a, desc)` is
rejected and recorded as a fuzzy duplicate (counting in `duplicates`),
while `(d+3, a, desc)` passes the fuzzy check and is inserted as new. -/
theorem fuzzy_duplicate_window :
    (∀ (ledger : List Expense) (s : String) (imp : ℚ) (op : String),
      check_fuzzy_duplicate ledger s imp op = true ↔
        ∃ d, parseDateYMD s = some d ∧ ∃ e ∈ ledger, FuzzyClash e d imp op) ∧
    (∀ (kws : List String) (e₀ : Expense) (nid : ℕ) (s₀ : Stats) (d : Date)
        (op conto cat val : String) (a : ℚ),
      ValidDate d →
      e₀.data_valuta = d → e₀.importo = a → e₀.operazione = op →
      pyStrip op = op → op ≠ "" → op ≠ "nan" →
      e₀.hash_id ≠ generate_hash (fmtDate (succDay d)) a op (normField conto) →
      processRow kws ⟨[e₀], nid, s₀⟩ ⟨.dt (succDay d), op, conto, cat, val, .num a⟩ =
        ⟨[e₀], nid,
         { s₀ with
           duplicates := s₀.duplicates + 1,
           fuzzy_matches := s₀.fuzzy_matches ++ [(succDay d, op, a)] }⟩) ∧
    (∀ (kws : List String) (e₀ : Expense) (nid : ℕ) (s₀ : Stats) (d : Date)
        (op conto cat val : String) (a : ℚ),
      ValidDate d →
      e₀.data_valuta = d →
      pyStrip op = op → op ≠ "" → op ≠ "nan" →
      e₀.hash_id ≠ generate_hash (fmtDate (addDays d 3)) a op (normField conto) →
      (processRow kws ⟨[e₀], nid, s₀⟩
          ⟨.dt (addDays d 3), op, conto, cat, val, .num a⟩).stats.new = s₀.new + 1 ∧
      (processRow kws ⟨[e₀], nid, s₀⟩
          ⟨.dt (addDays d 3), op, conto, cat, val, .num a⟩).stats.duplicates =
        s₀.duplicates) := by
  refine ⟨?_, ?_, ?_⟩
  · intro ledger s imp op
    unfold check_fuzzy_duplicate
    cases hp : parseDateYMD s with
    | none => simp
    | some t =>
      rw [fuzzyWindowHit_iff]
      constructor
      · intro h
        exact ⟨t, rfl, h⟩
      · rintro ⟨d, hsome, h⟩
        rcases Option.some.inj hsome with rfl
        exact h
  · intro kws e₀ nid s₀ d op conto cat val a hvd hed hei heo hops hne1 hne2 hhash
    have hv : ValidRow ⟨.dt (succDay d), op, conto, cat, val, .num a⟩ := by
      refine ⟨⟨succDay d, rfl⟩, ?_, ?_⟩
      · show pyStrip op ≠ ""
        rw [hops]; exact hne1
      · show pyStrip op ≠ "nan"
        rw [hops]; exact hne2
    have hex : ∀ e ∈ [e₀], e.hash_id ≠
        hashOf ⟨.dt (succDay d), op, conto, cat, val, .num a⟩ := by
      intro e he
      have heq : e = e₀ := List.mem_singleton.mp he
      rw [heq]
      show e₀.hash_id ≠ generate_hash (fmtDate (succDay d)) a (pyStrip op) (normField conto)
      rw [hops]
      exact hhash
    have hfz : fuzzyWindowHit [e₀]
        (dOf ⟨.dt (succDay d), op, conto, cat, val, .num a⟩)
        (rowImporto ⟨.dt (succDay d), op, conto, cat, val, .num a⟩)
        (rowOp ⟨.dt (succDay d), op, conto, cat, val, .num a⟩) = true := by
      apply (fuzzyWindowHit_iff _ _ _ _).mpr
      refine ⟨e₀, List.mem_singleton.mpr rfl, hei, ?_, ?_, ?_⟩
      · show normDesc e₀.operazione = normDesc (pyStrip op)
        rw [hops, heo]
      · show dateLe (subDays (succDay d) 2) e₀.data_valuta
        rw [subDays_two_succDay hvd, hed]
        exact Or.inl (predDay_lt hvd)
      · show dateLe e₀.data_valuta (addDays (succDay d) 2)
        rw [hed]
        exact Or.inl (dateLt_addDays3 d)
    rw [processRow_fuzzy kws ⟨[e₀], nid, s₀⟩ _ hv hex hfz]
    rw [show rowOp (⟨.dt (succDay d), op, conto, cat, val, .num a⟩ : RawRow) = op from hops]
    rfl
  · intro kws e₀ nid s₀ d op conto cat val a hvd hed hops hne1 hne2 hhash
    have hv : ValidRow ⟨.dt (addDays d 3), op, conto, cat, val, .num a⟩ := by
      refine ⟨⟨addDays d 3, rfl⟩, ?_, ?_⟩
      · show pyStrip op ≠ ""
        rw [hops]; exact hne1
      · show pyStrip op ≠ "nan"
        rw [hops]; exact hne2
    have hex : ∀ e ∈ [e₀], e.hash_id ≠
        hashOf ⟨.dt (addDays d 3), op, conto, cat, val, .num a⟩ := by
      intro e he
      have heq : e = e₀ := List.mem_singleton.mp he
      rw [heq]
      show e₀.hash_id ≠ generate_hash (fmtDate (addDays d 3)) a (pyStrip op) (normField conto)
      rw [hops]
      exact hhash
    have hfz : ∀ e ∈ [e₀], ¬ FuzzyClash e
        (dOf ⟨.dt (addDays d 3), op, conto, cat, val, .num a⟩)
        (rowImporto ⟨.dt (addDays d 3), op, conto, cat, val, .num a⟩)
        (rowOp ⟨.dt (addDays d 3), op, conto, cat, val, .num a⟩) := by
      intro e he
      have heq : e = e₀ := List.mem_singleton.mp he
      rw [heq, show dOf (⟨.dt (addDays d 3), op, conto, cat, val, .num a⟩ : RawRow) =
        addDays d 3 from rfl]
      rintro ⟨-, -, hlow, -⟩
      rw [subDays_two_addDays3 hvd, hed] at hlow
      exact not_dateLe_of_lt (dateLt_succDay d) hlow
    rw [processRow_insert kws ⟨[e₀], nid, s₀⟩ _ hv hex hfz]
    exact ⟨rfl, rfl⟩

/-- Claim C8: a row whose date string parses under none of the accepted
formats only increments `errors` and leaves everything else unchanged; the
loop then simply continues with the remaining rows; on a 10-row file whose
5th row has an unparseable date the statistics are `errors = 1, new = 9`. -/
theorem ingest_bad_row_continues :
    (∀ (kws : List String) (st : IngestState) (r : RawRow) (s : String),
      r.data = .str s → parseAnyDate s = none →
      processRow kws st r =
        { st with stats := { st.stats with errors := st.stats.errors + 1 } }) ∧
    (∀ (kws : List String) (st : IngestState) (r : RawRow) (rows : List RawRow),
      (r :: rows).foldl (processRow kws) st =
        rows.foldl (processRow kws) (processRow kws st r)) ∧
    (process_excel [] [] 1 exRows10).stats.errors = 1 ∧
    (process_excel [] [] 1 exRows10).stats.new = 9 := by
  refine ⟨processRow_error, fun kws st r rows => List.foldl_cons rows st, ?_, ?_⟩
  · with_unfolding_all decide
  · with_unfolding_all decide

/-- Claim C8 witness: the error step applied to a concrete bad row. -/
theorem ingest_bad_row_continues_witness :
    processRow [] ⟨[], 1, ⟨0, 0, [], 0⟩⟩
        ⟨.str "2024-02-30", "x", "", "", "EUR", .num 0⟩ =
      ⟨[], 1, ⟨0, 0, [], 1⟩⟩ :=
  ingest_bad_row_continues.1 [] ⟨[], 1, ⟨0, 0, [], 0⟩⟩
    ⟨.str "2024-02-30", "x", "", "", "EUR", .num 0⟩ "2024-02-30" rfl
    (by with_unfolding_all decide)

/-- Claim C9: every operation preserves pairwise-distinct fingerprints.
One ingestion step preserves the ledger invariant (the exact-duplicate
check runs against the current connection state, so rows inserted earlier
in the same batch are visible to it); a whole batch preserves it; manual
create and manual update preserve it; manual create refuses a fingerprint
already present (409, no mutation); manual update refuses a fingerprint
already used by a different row (409, no mutation). -/
theorem fingerprint_unique_invariant :
    (∀ (kws : List String) (st : IngestState) (r : RawRow),
      LedgerInv st.ledger st.nextId →
      LedgerInv (processRow kws st r).ledger (processRow kws st r).nextId) ∧
    (∀ (kws : List String) (rows : List RawRow) (st : IngestState),
      LedgerInv st.ledger st.nextId →
      LedgerInv (rows.foldl (processRow kws) st).ledger
        (rows.foldl (processRow kws) st).nextId) ∧
    (∀ (db : Db) (dv op cat conto : String) (imp : PyVal),
      LedgerInv db.ledger db.nextId →
      LedgerInv (create_expense db dv op cat conto imp).1.ledger
        (create_expense db dv op cat conto imp).1.nextId) ∧
    (∀ (db : Db) (eid : ℕ) (dv op cat conto : String) (imp : PyVal),
      LedgerInv db.ledger db.nextId →
      LedgerInv (update_expense db eid dv op cat conto imp).1.ledger
        (update_expense db eid dv op cat conto imp).1.nextId) ∧
    (∀ (db : Db) (dv op cat conto : String) (imp : PyVal) (d : Date),
      pyStrip dv ≠ "" → pyStrip op ≠ "" →
      parseDateYMD (pyStrip dv) = some d →
      (∃ e ∈ db.ledger, e.hash_id =
        generate_hash (fmtDate d) (parse_importo imp) (pyStrip op) (pyStrip conto)) →
      create_expense db dv op cat conto imp = (db, .conflict)) ∧
    (∀ (db : Db) (eid : ℕ) (dv op cat conto : String) (imp : PyVal) (d : Date),
      pyStrip dv ≠ "" → pyStrip op ≠ "" →
      parseDateYMD (pyStrip dv) = some d →
      (db.ledger.any fun e => e.id == eid) = true →
      (∃ e ∈ db.ledger, e.id ≠ eid ∧ e.hash_id =
        generate_hash (fmtDate d) (parse_importo imp) (pyStrip op) (pyStrip conto)) →
      update_expense db eid dv op cat conto imp = (db, .conflict)) := by
  refine ⟨processRow_inv, foldl_processRow_inv, create_expense_inv,
    update_expense_inv, ?_, ?_⟩
  · intro db dv op cat conto imp d h1 h2 h3 hex
    unfold create_expense
    rw [if_neg (show ¬(pyStrip dv = "" ∨ pyStrip op = "") from by
      push_neg; exact ⟨h1, h2⟩)]
    simp only [h3]
    rw [if_pos (show (db.ledger.any fun e => e.hash_id ==
        generate_hash (fmtDate d) (parse_importo imp) (pyStrip op) (pyStrip conto)) = true from by
      rw [List.any_eq_true]
      obtain ⟨e, he, heq⟩ := hex
      exact ⟨e, he, beq_iff_eq.mpr heq⟩)]
  · intro db eid dv op cat conto imp d h1 h2 h3 hfound hex
    unfold update_expense
    rw [if_neg (show ¬(pyStrip dv = "" ∨ pyStrip op = "") from by
      push_neg; exact ⟨h1, h2⟩)]
    simp only [h3]
    rw [if_pos hfound]
    rw [if_pos (show (db.ledger.any fun e => e.hash_id ==
        generate_hash (fmtDate d) (parse_importo imp) (pyStrip op) (pyStrip conto) &&
          e.id != eid) = true from by
      rw [List.any_eq_true]
      obtain ⟨e, he, hne, heq⟩ := hex
      refine ⟨e, he, ?_⟩
      rw [Bool.and_eq_true]
      exact ⟨beq_iff_eq.mpr heq, bne_iff_ne.mpr hne⟩)]

/-- Claim C9 witness: the single-step preservation applied to a fresh
connection state and a concrete row. -/
theorem fingerprint_unique_invariant_witness :
    LedgerInv ([] : List Expense) 1 ∧
    LedgerInv (processRow [] ⟨[], 1, ⟨0, 0, [], 0⟩⟩
        ⟨.dt ⟨2024, 5, 10⟩, "spesa", "", "", "EUR", .num (-3)⟩).ledger
      (processRow [] ⟨[], 1, ⟨0, 0, [], 0⟩⟩
        ⟨.dt ⟨2024, 5, 10⟩, "spesa", "", "", "EUR", .num (-3)⟩).nextId :=
  ⟨⟨List.Pairwise.nil, List.Pairwise.nil, fun e he => absurd he (List.not_mem_nil e)⟩,
   fingerprint_unique_invariant.1 [] ⟨[], 1, ⟨0, 0, [], 0⟩⟩
     ⟨.dt ⟨2024, 5, 10⟩, "spesa", "", "", "EUR", .num (-3)⟩
     ⟨List.Pairwise.nil, List.Pairwise.nil, fun e he => absurd he (List.not_mem_nil e)⟩⟩

/-- Claim C6: for a batch of valid rows with pairwise-distinct
fingerprints, none already present, and no fuzzy matches (against the
initial ledger or among each other), the first ingestion inserts all of
them (`new = N`, no duplicates) appending exactly the corresponding ledger
rows; re-ingesting the same batch inserts nothing (`new = 0`,
`duplicates = N`) and leaves the ledger unchanged. -/
theorem ingest_idempotent_exact_duplicates
    (stored_kws : List String) (init : List Expense) (nid : ℕ) (rows : List RawRow)
    (hval : ∀ r ∈ rows, ValidRow r)
    (hph : List.Pairwise (fun a b => hashOf a ≠ hashOf b) rows)
    (hpf : List.Pairwise (fun a b => ¬ RowClash a b) rows)
    (hinit : ∀ r ∈ rows, ∀ e ∈ init, e.hash_id ≠ hashOf r)
    (hinitf : ∀ r ∈ rows, ∀ e ∈ init, ¬ FuzzyClash e (dOf r) (rowImporto r) (rowOp r)) :
    (process_excel stored_kws init nid rows).stats.new = rows.length ∧
    (process_excel stored_kws init nid rows).stats.duplicates = 0 ∧
    (process_excel stored_kws init nid rows).ledger =
      init ++ insFrom (get_neutral_keywords stored_kws) nid rows ∧
    (process_excel stored_kws (process_excel stored_kws init nid rows).ledger
        (process_excel stored_kws init nid rows).nextId rows).stats.new = 0 ∧
    (process_excel stored_kws (process_excel stored_kws init nid rows).ledger
        (process_excel stored_kws init nid rows).nextId rows).stats.duplicates =
      rows.length ∧
    (process_excel stored_kws (process_excel stored_kws init nid rows).ledger
        (process_excel stored_kws init nid rows).nextId rows).ledger =
      (process_excel stored_kws init nid rows).ledger := by
  have h1 : process_excel stored_kws init nid rows =
      { ledger := init ++ insFrom (get_neutral_keywords stored_kws) nid rows,
        nextId := nid + rows.length,
        stats := ⟨0 + rows.length, 0, [], 0⟩ } := by
    unfold process_excel
    exact foldl_all_new (get_neutral_keywords stored_kws) rows
      ⟨init, nid, ⟨0, 0, [], 0⟩⟩ hval hph hpf hinit hinitf
  have h2 : process_excel stored_kws
      (init ++ insFrom (get_neutral_keywords stored_kws) nid rows)
      (nid + rows.length) rows =
      { ledger := init ++ insFrom (get_neutral_keywords stored_kws) nid rows,
        nextId := nid + rows.length,
        stats := ⟨0, 0 + rows.length, [], 0⟩ } := by
    unfold process_excel
    refine foldl_all_dup (get_neutral_keywords stored_kws) rows _ hval ?_
    intro r hr
    obtain ⟨e, he, heq⟩ :=
      hashOf_mem_insFrom (get_neutral_keywords stored_kws) rows nid r hr
    exact ⟨e, List.mem_append.mpr (Or.inr he), heq⟩
  rw [h1]
  dsimp only
  rw [h2]
  refine ⟨by omega, rfl, rfl, rfl, by dsimp only; omega, rfl⟩

/-- Claim C6 witness: the idempotence property applied to a concrete
two-row batch against an empty ledger. -/
theorem ingest_idempotent_exact_duplicates_witness :
    (process_excel [] [] 1 exRowsC6).stats.new = exRowsC6.length ∧
    (process_excel [] [] 1 exRowsC6).stats.duplicates = 0 ∧
    (process_excel [] [] 1 exRowsC6).ledger =
      [] ++ insFrom (get_neutral_keywords []) 1 exRowsC6 ∧
    (process_excel [] (process_excel [] [] 1 exRowsC6).ledger
        (process_excel [] [] 1 exRowsC6).nextId exRowsC6).stats.new = 0 ∧
    (process_excel [] (process_excel [] [] 1 exRowsC6).ledger
        (process_excel [] [] 1 exRowsC6).nextId exRowsC6).stats.duplicates =
      exRowsC6.length ∧
    (process_excel [] (process_excel [] [] 1 exRowsC6).ledger
        (process_excel [] [] 1 exRowsC6).nextId exRowsC6).ledger =
      (process_excel [] [] 1 exRowsC6).ledger :=
  ingest_idempotent_exact_duplicates [] [] 1 exRowsC6
    (by
      intro r hr
      fin_cases hr
      · exact ⟨⟨⟨2024, 3, 1⟩, by with_unfolding_all decide⟩,
          by with_unfolding_all decide, by with_unfolding_all decide⟩
      · exact ⟨⟨⟨2024, 3, 10⟩, by with_unfolding_all decide⟩,
          by with_unfolding_all decide, by with_unfolding_all decide⟩)
    (by with_unfolding_all decide)
    (by with_unfolding_all decide)
    (fun r hr e he => absurd he (List.not_mem_nil e))
    (fun r hr e he => absurd he (List.not_mem_nil e))

/-- Claim C5 witness: the `d+1` rejection applied to a concrete ledger row
and candidate. -/
theorem fuzzy_duplicate_window_witness :
    processRow [] ⟨[e5ex], 2, ⟨0, 0, [], 0⟩⟩
        ⟨.dt (succDay ⟨2024, 5, 10⟩), "spesa bar", "", "", "EUR", .num (-12.5)⟩ =
      ⟨[e5ex], 2, ⟨0, 1, [(succDay ⟨2024, 5, 10⟩, "spesa bar", -12.5)], 0⟩⟩ :=
  fuzzy_duplicate_window.2.1 [] e5ex 2 ⟨0, 0, [], 0⟩ ⟨2024, 5, 10⟩
    "spesa bar" "" "" "EUR" (-12.5)
    (by decide) rfl rfl rfl (by with_unfolding_all decide)
    (by decide) (by decide) (by with_unfolding_all decide)

end ExpenseApp
